import Mathlib

/-!
# Verification of the iso-manager Download & Archive Synchronization Engine

Shallow embedding, in Lean 4, of the JavaScript functions of the
`mikl0s/iso-manager` repository that the specification talks about, together
with theorems settling the specification's claims against them.

Conventions used throughout:

* JavaScript strings are `String`; an absent (`undefined`/`null`) string
  argument is modelled as `""` or as `Option String`, matching JS truthiness
  (`undefined`, `null` and `""` are all falsy) at each use site.
* Byte streams are `List Nat` (one `Nat` per byte); a chunked stream is a
  `List (List Nat)`.  Cryptographic digests are abstracted as a function
  `digest : List Nat → String`: Node's incremental `hash.update(chunk)` /
  `hash.digest('hex')` over the chunks of a stream equals the digest of the
  concatenation of the chunks, so the embedding applies `digest` to the
  concatenation.
* Network interactions are scripted: a download transfer is a list of
  `NetEvent`s (one per HTTP attempt), and redirect resolution is driven by an
  oracle mapping a URL to its response.
* Filesystem effects are made explicit: functions that may delete the
  partially written download return, next to their result, a `Bool` that is
  `true` exactly when a file is still present at the destination path
  afterwards.
-/

/-!
All string manipulation is carried out on `List Char` with structurally
recursive helpers (mirroring the JS operations character by character), so
that every definition evaluates by kernel reduction on concrete inputs.
-/

/-- ASCII lower-casing, modelling JavaScript `String.prototype.toLowerCase`
on the ASCII data (hex digits, filenames) handled by the program. -/
def jsToLower (s : String) : String :=
  String.mk (s.toList.map Char.toLower)

/-- Hexadecimal digit test, the character class `[0-9a-fA-F]` used by the
hash-file parsers. -/
def isHexChar (c : Char) : Bool :=
  c.isDigit || ('a' ≤ c && c ≤ 'f') || ('A' ≤ c && c ≤ 'F')

/-- JavaScript `String.prototype.split(sep)` for a one-character separator:
split into the (possibly empty) runs between occurrences of `sep`.
`''.split('.')` is `['']` and `'.'.split('.')` is `['', '']`, as in JS. -/
def splitOnChar (sep : Char) : List Char → List (List Char)
  | [] => [[]]
  | c :: cs =>
    let r := splitOnChar sep cs
    if c = sep then [] :: r
    else
      match r with
      | h :: t => (c :: h) :: t
      | [] => [[c]]

/-- JavaScript `String.prototype.trim`. -/
def jsTrim (s : String) : String :=
  String.mk (((s.toList.dropWhile Char.isWhitespace).reverse.dropWhile
    Char.isWhitespace).reverse)

/-- JavaScript `String.prototype.startsWith`. -/
def jsStartsWith (s pre : String) : Bool :=
  pre.toList.isPrefixOf s.toList

/-- Digit-string to number.  For a list of decimal digits this agrees with
JavaScript `Number`; it is only ever applied (via `jsNumberPart`) under that
hypothesis, or to `[]`, where JavaScript's `Number('')` is `0` as well. -/
def digitsToNat (l : List Char) : Nat :=
  l.foldl (fun n c => n * 10 + (c.toNat - 48)) 0

/-- JavaScript `Number(part)` for one dot-separated version component, as a
partial model: `none` stands for `NaN`.  `Number('')` is `0` in JavaScript
(empty components arise from splits such as `"1..2"`), and a non-empty digit
string is its decimal value.  Strings that are neither (signs, decimals,
exponents, hex literals, whitespace) are conservatively mapped to `NaN`; the
theorems below only evaluate version components that are digit strings or
empty, where this model is exact. -/
def jsNumberPart (p : List Char) : Option Nat :=
  if p.all Char.isDigit then some (digitsToNat p) else none

/-- JavaScript `>` on two numbers where `none` is `NaN`: any comparison with
`NaN` is false. -/
def jsGT : Option Nat → Option Nat → Bool
  | some a, some b => a > b
  | _, _ => false

/-- JavaScript `<` on two numbers where `none` is `NaN`. -/
def jsLT : Option Nat → Option Nat → Bool
  | some a, some b => a < b
  | _, _ => false

namespace Web

/-- Remainder of the `compareVersions` loop once the first component list is
exhausted: each remaining component of the second list is compared against
the missing component `0`. -/
def cmpTail : List (Option Nat) → Int
  | [] => 0
  | y :: ys =>
    if jsGT (some 0) y then 1 else if jsLT (some 0) y then -1 else cmpTail ys

/-- The comparison loop of `compareVersions` (iso-manager-web/index.html
780–798): walk both component lists, a missing trailing component being the
number `0`, returning `1`/`-1` at the first strictly greater/smaller pair
(JS `>`/`<`, false on `NaN`) and `0` when the lists are exhausted. -/
def cmpParts : List (Option Nat) → List (Option Nat) → Int
  | [], ys => cmpTail ys
  | x :: xs, ys =>
    let y := ys.headD (some 0)
    if jsGT x y then 1 else if jsLT x y then -1 else cmpParts xs ys.tail

/-- `compareVersions(v1, v2)` from iso-manager-web/index.html 780–798: split
both versions on `'.'`, map each component through `Number`, and compare
component-wise with missing trailing components treated as `0`. -/
def compareVersions (v1 v2 : String) : Int :=
  cmpParts ((splitOnChar '.' v1.toList).map jsNumberPart)
    ((splitOnChar '.' v2.toList).map jsNumberPart)

end Web

/-- A dotted-numeric version string in the sense of the specification: every
dot-separated component is a non-empty string of decimal digits. -/
def DottedNumeric (v : String) : Prop :=
  ∀ p ∈ splitOnChar '.' v.toList, p ≠ [] ∧ p.all Char.isDigit

instance (v : String) : Decidable (DottedNumeric v) := by
  unfold DottedNumeric; infer_instance

/-- Remainder of the specification's comparison once the first component list
is exhausted. -/
def specCmpTail : List Nat → Int
  | [] => 0
  | y :: ys => if y > 0 then -1 else specCmpTail ys

/-- The specification's version order, written from its words alone: compare
the numeric values of the components in order, a missing trailing component
being `0`. -/
def specCmpParts : List Nat → List Nat → Int
  | [], ys => specCmpTail ys
  | x :: xs, ys =>
    let y := ys.headD 0
    if x > y then 1 else if x < y then -1 else specCmpParts xs ys.tail

/-- Numeric component-wise comparison of two version strings, following the
specification's words only. -/
def specVersionCompare (v1 v2 : String) : Int :=
  specCmpParts ((splitOnChar '.' v1.toList).map digitsToNat)
    ((splitOnChar '.' v2.toList).map digitsToNat)

theorem cmpTail_map_some (ys : List Nat) :
    Web.cmpTail (ys.map some) = specCmpTail ys := by
  induction ys with
  | nil => rfl
  | cons y ys ih =>
    simp only [List.map_cons, Web.cmpTail, specCmpTail, jsGT, jsLT]
    by_cases hy : 0 < y
    · simp [hy, show ¬ (0 > y) by omega]
    · simp only [hy, show ¬ (0 > y) by omega, show ¬ (y > 0) by omega, decide_eq_true_eq,
        if_false, decide_False, Bool.false_eq_true, ite_false]
      exact ih

theorem cmpParts_map_some (xs ys : List Nat) :
    Web.cmpParts (xs.map some) (ys.map some) = specCmpParts xs ys := by
  induction xs generalizing ys with
  | nil => simpa [Web.cmpParts, specCmpParts] using cmpTail_map_some ys
  | cons x xs ih =>
    have hhead : (ys.map some).headD (some 0) = some (ys.headD 0) := by
      cases ys <;> rfl
    have htail : (ys.map some).tail = ys.tail.map some := by
      cases ys <;> rfl
    simp only [List.map_cons, Web.cmpParts, specCmpParts, hhead, htail, jsGT, jsLT,
      decide_eq_true_eq]
    split_ifs <;> first | rfl | exact ih ys.tail

theorem map_jsNumberPart_of_dotted {v : String} (h : DottedNumeric v) :
    (splitOnChar '.' v.toList).map jsNumberPart =
      ((splitOnChar '.' v.toList).map digitsToNat).map some := by
  rw [List.map_map]
  apply List.map_congr_left
  intro p hp
  have hd := h p hp
  show jsNumberPart p = some (digitsToNat p)
  unfold jsNumberPart
  rw [if_pos hd.2]

/-- **C6.** For all dotted-numeric version strings `v1` and `v2`,
`compareVersions` compares them numerically component by component with
missing trailing components treated as `0`; in particular
`compareVersions("22.04.3", "22.04") > 0`,
`compareVersions("1.2", "1.2.0") == 0` and
`compareVersions("2.0", "10.0") < 0` (numeric, not lexical, comparison). -/
theorem c6_compareVersions_numeric (v1 v2 : String)
    (h1 : DottedNumeric v1) (h2 : DottedNumeric v2) :
    Web.compareVersions v1 v2 = specVersionCompare v1 v2 ∧
    Web.compareVersions "22.04.3" "22.04" = 1 ∧
    Web.compareVersions "1.2" "1.2.0" = 0 ∧
    Web.compareVersions "2.0" "10.0" = -1 := by
  refine ⟨?_, by decide, by decide, by decide⟩
  unfold Web.compareVersions specVersionCompare
  rw [map_jsNumberPart_of_dotted h1, map_jsNumberPart_of_dotted h2, cmpParts_map_some]

/-- Witness for `c6_compareVersions_numeric` at the specification's own
example inputs. -/
theorem c6_compareVersions_numeric_witness :
    DottedNumeric "22.04.3" ∧ DottedNumeric "22.04" ∧
    Web.compareVersions "22.04.3" "22.04" = specVersionCompare "22.04.3" "22.04" :=
  ⟨by decide, by decide,
    (c6_compareVersions_numeric "22.04.3" "22.04" (by decide) (by decide)).1⟩

namespace Web

/-- The `updateAvailable` decision taken by `markArchivedIsos`
(iso-manager-web/index.html 691–710) when the matched archive record has
`isos.json` metadata.  Inputs model the JS values at that point:
`archivedVersion` is `matchedIsoData.version` (`""` for an absent value, which
is falsy like `undefined`), `newVersion` is
`detailsCopy.version || extractVersionFromFilename(isoFilename)` (`""` when
both are absent), and the sizes are `detailsCopy.size` / `matchedIsoData.size`
with `0` for an absent or zero (falsy) value.  The source reads:

    if (archivedVersion && newVersion && archivedVersion !== newVersion) {
      if (compareVersions(newVersion, archivedVersion) > 0) updateAvailable = true;
    }
    else if (detailsCopy.size && matchedIsoData.size &&
             Math.abs(detailsCopy.size - matchedIsoData.size) > 1024 * 1024) {
      updateAvailable = true;
    }

Note the `else if` is attached to the outer `if`: the size test also runs when
the two version strings are identical. -/
def updateAvailableDecision (archivedVersion newVersion : String)
    (newSize archivedSize : Nat) : Bool :=
  if archivedVersion ≠ "" ∧ newVersion ≠ "" ∧ archivedVersion ≠ newVersion then
    decide (compareVersions newVersion archivedVersion > 0)
  else if newSize ≠ 0 ∧ archivedSize ≠ 0 ∧
      ((newSize : Int) - (archivedSize : Int)).natAbs > 1024 * 1024 then
    true
  else false

end Web

/-- The update-detection rule as the claim words it: flag exactly when both
sides carry parsed dotted-numeric versions and the listing version is strictly
greater, or — only when that version comparison is not applicable — both
sizes are known and differ by more than 1 MiB. -/
def claimUpdateAvailable (archivedVersion newVersion : String)
    (newSize archivedSize : Nat) : Bool :=
  if DottedNumeric archivedVersion ∧ DottedNumeric newVersion ∧
      Web.compareVersions newVersion archivedVersion > 0 then true
  else if ¬ (DottedNumeric archivedVersion ∧ DottedNumeric newVersion) ∧
      newSize ≠ 0 ∧ archivedSize ≠ 0 ∧
      ((newSize : Int) - (archivedSize : Int)).natAbs > 1024 * 1024 then true
  else false

/-- **C8 counterexample.** With identical dotted-numeric versions `"1.0"` on
both sides (version comparison applicable, not strictly greater) and sizes
`2097152` vs `1` (difference above 1 MiB), the code flags an update while the
claim's rule does not: the code's size test also runs when the version strings
are equal. -/
theorem c8_counterexample :
    Web.updateAvailableDecision "1.0" "1.0" 2097152 1 = true ∧
    claimUpdateAvailable "1.0" "1.0" 2097152 1 = false := by
  constructor
  · decide
  · decide

/-- **C8 amended.** `markArchivedIsos` flags `updateAvailable` exactly when
either both version strings are present (non-empty) and differ *as strings*
and the component-wise numeric comparison makes the listing version strictly
greater, or — when a version is missing or the two version strings are
identical — both sizes are known (non-zero) and differ by more than 1 MiB. -/
theorem c8_amended (archivedVersion newVersion : String) (newSize archivedSize : Nat) :
    Web.updateAvailableDecision archivedVersion newVersion newSize archivedSize = true ↔
      ((archivedVersion ≠ "" ∧ newVersion ≠ "" ∧ archivedVersion ≠ newVersion ∧
          Web.compareVersions newVersion archivedVersion > 0) ∨
        (¬ (archivedVersion ≠ "" ∧ newVersion ≠ "" ∧ archivedVersion ≠ newVersion) ∧
          newSize ≠ 0 ∧ archivedSize ≠ 0 ∧
          ((newSize : Int) - (archivedSize : Int)).natAbs > 1024 * 1024)) := by
  unfold Web.updateAvailableDecision
  split_ifs with h1 h2
  · simp only [decide_eq_true_eq]
    constructor
    · intro hc
      exact Or.inl ⟨h1.1, h1.2.1, h1.2.2, hc⟩
    · rintro (⟨_, _, _, hc⟩ | ⟨hn, _⟩)
      · exact hc
      · exact absurd h1 hn
  · simp only [true_iff]
    exact Or.inr ⟨h1, h2⟩
  · simp only [Bool.false_eq_true, false_iff]
    rintro (⟨ha, hb, hcne, _⟩ | ⟨_, hs⟩)
    · exact h1 ⟨ha, hb, hcne⟩
    · exact h2 hs

/-- Witness for `c8_amended`: a concrete run through the size branch. -/
theorem c8_amended_witness :
    Web.updateAvailableDecision "" "1.0" 2097152 1 = true :=
  (c8_amended "" "1.0" 2097152 1).mpr (Or.inr (by decide))

/-! ## Download transfers

A transfer is scripted as a list of `NetEvent`s, one per HTTP attempt: a
redirect response consumes one event and the transfer continues with the next
event; any other event ends the transfer. -/

/-- One observable outcome of one HTTP attempt of a download. -/
inductive NetEvent where
  /-- A 3xx response carrying a `Location` header (for the node engine, a
  301/302; its other 3xx codes fall under `httpOther`). -/
  | redirect (location : String)
  /-- A terminal response with a non-200, non-redirect-handled status code. -/
  | httpOther (status : Nat)
  /-- The HTTP request object emitted `'error'` (connection failure etc.). -/
  | reqError (msg : String)
  /-- The destination write stream emitted `'error'`. -/
  | fileError (msg : String)
  /-- A 200 response whose body was streamed to completion in `chunks`
  (`contentLength` is the optional `Content-Length` header). -/
  | body (contentLength : Option Nat) (chunks : List (List Nat))
deriving Repr, DecidableEq

namespace Downloader

/-- The resolved object of the web download module's `downloadAndVerifyFile`
(iso-manager-web/index.html 1552–1656).  Fields that the JS object omits on a
given path are `none`; the wall-clock `duration`/`speed` diagnostics are
omitted from the model. -/
structure WebResult where
  success : Bool
  path : String
  size : Option Nat := none
  hash : Option String := none
  error : Option String := none
  expected : Option String := none
  actual : Option String := none
deriving Repr, DecidableEq

/-- `downloadAndVerifyFile(url, outputPath, expectedHash, hashAlgorithm)` from
iso-manager-web/index.html 1552–1656, over a scripted transfer.  The second
component of the result is `true` exactly when a file is still present at
`outputPath` afterwards:

* a redirect closes the file and recurses on the redirect target (the write
  stream is recreated at the same `outputPath`);
* a non-200 terminal status runs `fs.unlinkSync(outputPath)` and rejects;
* request and write-stream errors run `fs.unlink(outputPath)` and reject;
* on `finish`, when `expectedHash` is truthy the digest of the streamed bytes
  is compared case-insensitively: a match resolves `success:true` with the
  hash, a mismatch resolves `success:false` carrying `expected` and `actual`
  — in both cases the file is kept on disk;
* with no (or empty, falsy) `expectedHash`, no hash is computed and the
  result is unconditionally successful.

An empty event list stands for a connection that dies without ever producing
a response object, which surfaces through the request `'error'` handler and
therefore also unlinks the file. -/
def downloadAndVerifyFile (digest : List Nat → String)
    (outputPath expectedHash hashAlgorithm : String) :
    List NetEvent → Except String WebResult × Bool
  | [] => (.error "socket hang up", false)
  | NetEvent.redirect _ :: rest =>
    downloadAndVerifyFile digest outputPath expectedHash hashAlgorithm rest
  | NetEvent.httpOther status :: _ =>
    (.error ("HTTP Error: " ++ toString status), false)
  | NetEvent.reqError msg :: _ => (.error msg, false)
  | NetEvent.fileError msg :: _ => (.error msg, false)
  | NetEvent.body _ chunks :: _ =>
    let downloadedBytes := (chunks.map List.length).sum
    if expectedHash ≠ "" then
      let calculatedHash := digest chunks.flatten
      if jsToLower calculatedHash = jsToLower expectedHash then
        (.ok { success := true, path := outputPath, size := some downloadedBytes,
               hash := some calculatedHash }, true)
      else
        (.ok { success := false, path := outputPath,
               error := some "Hash verification failed",
               expected := some expectedHash, actual := some calculatedHash }, true)
    else
      (.ok { success := true, path := outputPath, size := some downloadedBytes }, true)

end Downloader

/-- **C1.** For every download in which an `expectedHash` was supplied and the
hash computed over the streamed bytes differs from it (case-insensitively),
the download resolves without throwing, returning a result with
`success == false` that carries both the expected and the actual hash, and
the downloaded file is kept on disk. -/
theorem c1_hash_mismatch_resolves (digest : List Nat → String)
    (outputPath expectedHash hashAlgorithm : String) (cl : Option Nat)
    (chunks : List (List Nat)) (rest : List NetEvent)
    (hsupplied : expectedHash ≠ "")
    (hmismatch : jsToLower (digest chunks.flatten) ≠ jsToLower expectedHash) :
    Downloader.downloadAndVerifyFile digest outputPath expectedHash hashAlgorithm
        (NetEvent.body cl chunks :: rest) =
      (Except.ok { success := false, path := outputPath,
                   error := some "Hash verification failed",
                   expected := some expectedHash,
                   actual := some (digest chunks.flatten) }, true) := by
  unfold Downloader.downloadAndVerifyFile
  rw [if_pos hsupplied, if_neg hmismatch]

/-- Witness for `c1_hash_mismatch_resolves`: a two-chunk transfer with a
deliberately wrong expected hash against a concrete digest function. -/
theorem c1_hash_mismatch_resolves_witness :
    Downloader.downloadAndVerifyFile (fun bytes => toString bytes.length)
        "/tmp/out.iso" "FFFF" "sha256" (NetEvent.body (some 3) [[1, 2], [3]] :: []) =
      (Except.ok { success := false, path := "/tmp/out.iso",
                   error := some "Hash verification failed",
                   expected := some "FFFF", actual := some "3" }, true) :=
  c1_hash_mismatch_resolves (fun bytes => toString bytes.length)
    "/tmp/out.iso" "FFFF" "sha256" (some 3) [[1, 2], [3]] [] (by decide) (by decide)

namespace IsoManagerJs

/-- The resolved object of `IsoManager.downloadAndVerifyFile`
(iso-manager.js 990–1091) on its success path.  `size` is reported from
`fileStream.bytesTransferred`, which the source assigns once, synchronously,
before any `'data'` event has fired — so the reported size is always `0`
(the running count is kept in a local variable the `finish` handler does not
read). -/
structure NodeResult where
  success : Bool
  filePath : String
  filename : String
  size : Nat
deriving Repr, DecidableEq

/-- `IsoManager.downloadAndVerifyFile` (iso-manager.js 1029–1091), over a
scripted transfer; the model starts after redirect resolution and directory
creation, at the write-stream creation for `downloadPath`.  The second
component records whether a file is present at `downloadPath` afterwards.
Against the web module above, note that no error path ever unlinks the file:

* a 301/302 response calls `fileStream.destroy()` (no unlink) and resolves
  with a recursive call;
* any other non-200 status destroys the stream and rejects — no unlink;
* a request error destroys the stream and rejects — no unlink;
* a write-stream error rejects — no unlink;
* `finish` resolves `success:true` without any hash verification.

`fs.createWriteStream(downloadPath)` has already created (or truncated) the
file by the time any of these fire, so the `Bool` is `true` on every path. -/
def downloadAndVerifyFile (downloadPath filename : String) :
    List NetEvent → Except String NodeResult × Bool
  | [] => (.error "socket hang up", true)
  | NetEvent.redirect _ :: rest => downloadAndVerifyFile downloadPath filename rest
  | NetEvent.httpOther status :: _ => (.error ("HTTP " ++ toString status), true)
  | NetEvent.reqError msg :: _ => (.error msg, true)
  | NetEvent.fileError msg :: _ =>
    (.error ("File write error: " ++ msg), true)
  | NetEvent.body _ _ :: _ =>
    (.ok { success := true, filePath := downloadPath, filename := filename,
           size := 0 }, true)

end IsoManagerJs

/-- **C2 counterexample.** A download through the node engine that fails with
a network error surfaces the error while the destination file is still
present: `IsoManager.downloadAndVerifyFile` never removes the partially
written file, contradicting the claim that after any error path no file at
all is left at the destination. -/
theorem c2_node_keeps_failed_file_counterexample :
    IsoManagerJs.downloadAndVerifyFile "/tmp/dl/ubuntu.iso" "ubuntu.iso"
        [NetEvent.reqError "read ECONNRESET"] =
      (Except.error "read ECONNRESET", true) := by
  rfl

/-- **C2 amended.** Only the web download module removes the partially
written destination file before surfacing an error: it unlinks the file on
every path that rejects (network error, HTTP error status, write error,
absent response).  The node engine (`IsoManager.downloadAndVerifyFile`) never
removes the destination file on any path — after each of its error paths the
partial file remains on disk. -/
theorem c2_amended_cleanup (digest : List Nat → String)
    (outputPath expectedHash hashAlgorithm downloadPath filename : String)
    (events : List NetEvent) :
    (∀ msg, (Downloader.downloadAndVerifyFile digest outputPath expectedHash
        hashAlgorithm events).1 = Except.error msg →
      (Downloader.downloadAndVerifyFile digest outputPath expectedHash
        hashAlgorithm events).2 = false) ∧
    (IsoManagerJs.downloadAndVerifyFile downloadPath filename events).2 = true := by
  induction events with
  | nil => exact ⟨fun _ _ => rfl, rfl⟩
  | cons e rest ih =>
    cases e with
    | redirect loc =>
      exact ⟨fun msg h => (ih.1 msg h), ih.2⟩
    | httpOther s => exact ⟨fun _ _ => rfl, rfl⟩
    | reqError m => exact ⟨fun _ _ => rfl, rfl⟩
    | fileError m => exact ⟨fun _ _ => rfl, rfl⟩
    | body cl chunks =>
      refine ⟨fun msg h => absurd h ?_, rfl⟩
      unfold Downloader.downloadAndVerifyFile
      dsimp only
      split_ifs <;> simp

/-- Witness for `c2_amended_cleanup`: the web module unlinks on a concrete
network error while the node engine keeps the file on the same event. -/
theorem c2_amended_cleanup_witness :
    (Downloader.downloadAndVerifyFile (fun _ => "") "/tmp/a.iso" "" "sha256"
        [NetEvent.reqError "ETIMEDOUT"]).2 = false ∧
    (IsoManagerJs.downloadAndVerifyFile "/tmp/a.iso" "a.iso"
        [NetEvent.reqError "ETIMEDOUT"]).2 = true :=
  ⟨(c2_amended_cleanup (fun _ => "") "/tmp/a.iso" "" "sha256" "/tmp/a.iso" "a.iso"
      [NetEvent.reqError "ETIMEDOUT"]).1 "ETIMEDOUT" rfl,
   (c2_amended_cleanup (fun _ => "") "/tmp/a.iso" "" "sha256" "/tmp/a.iso" "a.iso"
      [NetEvent.reqError "ETIMEDOUT"]).2⟩

/-! ## Redirect resolution -/

namespace IsoManagerJs

/-- `IsoManager.followRedirects(url, maxRedirects = 5)` (iso-manager.js
973–988), driven by a response oracle: `respond u` is `none` when the GET for
`u` errors (the source resolves `null` and stops), and `some (status,
location)` otherwise.  `resolveURL location base` models
`new URL(location, base).toString()`.  The source's loop body returns
`currentUrl` as soon as the response is absent or its status is not 301/302;
when the loop exhausts its `maxRedirects` iterations it also returns the
current — possibly still redirecting — URL, with no error.  (A 301/302
response always carries a `Location` header in this model.) -/
def followRedirects (respond : String → Option (Nat × String))
    (resolveURL : String → String → String) : String → Nat → String
  | url, 0 => url
  | url, hops + 1 =>
    match respond url with
    | none => url
    | some (status, location) =>
      if status = 301 ∨ status = 302 then
        followRedirects respond resolveURL (resolveURL location url) hops
      else url

end IsoManagerJs

/-- The response oracle for `fetchData` (iso-manager.js 175–231): a 3xx
response with a `Location` header, a terminal non-200 status, a 200 payload,
or a request/timeout error. -/
inductive FetchResp where
  | redirect (location : String)
  | httpStatus (status : Nat)
  | payload (body : String)
  | failed (msg : String)
deriving Repr, DecidableEq

namespace IsoManagerJs

/-- `fetchData(url, maxRedirects = 5)` (iso-manager.js 175–231).  A redirect
found with `maxRedirects <= 0` rejects with `'Too many redirects'`;
otherwise the redirect is followed with `maxRedirects - 1`.  A terminal
non-200 status rejects with `'Failed to fetch: HTTP <code>'`; request errors
and the 30-second timeout reject with their message. -/
def fetchData (respond : String → FetchResp)
    (resolveURL : String → String → String) : String → Nat → Except String String
  | url, 0 =>
    match respond url with
    | FetchResp.redirect _ => .error "Too many redirects"
    | FetchResp.httpStatus s => .error ("Failed to fetch: HTTP " ++ toString s)
    | FetchResp.payload d => .ok d
    | FetchResp.failed m => .error m
  | url, n + 1 =>
    match respond url with
    | FetchResp.redirect location =>
      fetchData respond resolveURL (resolveURL location url) n
    | FetchResp.httpStatus s => .error ("Failed to fetch: HTTP " ++ toString s)
    | FetchResp.payload d => .ok d
    | FetchResp.failed m => .error m

end IsoManagerJs

/-- A redirect chain `u0 → u1 → … → u6` of six 301 hops — one more than the
default hop limit of `5`. -/
def chainRespond : String → Option (Nat × String) := fun u =>
  if u = "u0" then some (301, "u1")
  else if u = "u1" then some (301, "u2")
  else if u = "u2" then some (301, "u3")
  else if u = "u3" then some (301, "u4")
  else if u = "u4" then some (301, "u5")
  else if u = "u5" then some (301, "u6")
  else some (200, "")

/-- A `Location` resolver for oracles that already emit absolute URLs. -/
def literalResolve : String → String → String := fun location _ => location

/-- **C3 counterexample.** On a redirect chain strictly longer than the hop
limit, `followRedirects` — the resolver the download engine uses — does not
fail with `TooManyRedirects`: it silently returns `"u5"`, an intermediate URL
that itself still answers with a 301 redirect. -/
theorem c3_counterexample :
    IsoManagerJs.followRedirects chainRespond literalResolve "u0" 5 = "u5" ∧
    chainRespond "u5" = some (301, "u6") := by
  constructor
  · rfl
  · rfl

/-- **C3 amended.** `fetchData` does reject with `'Too many redirects'`
whenever the chain exceeds its hop budget, and `followRedirects` always
terminates within its hop budget — but on exhaustion it silently returns the
URL reached after `maxRedirects` hops (an intermediate URL) instead of
failing. -/
theorem c3_amended (respond : String → FetchResp)
    (respond2 : String → Option (Nat × String))
    (resolveURL : String → String → String) (locOf : String → String)
    (url : String) (n : Nat)
    (hall : ∀ u, respond u = FetchResp.redirect (locOf u))
    (hall2 : ∀ u, respond2 u = some (301, locOf u)) :
    IsoManagerJs.fetchData respond resolveURL url n =
      Except.error "Too many redirects" ∧
    IsoManagerJs.followRedirects respond2 resolveURL url n =
      (fun u => resolveURL (locOf u) u)^[n] url := by
  induction n generalizing url with
  | zero =>
    constructor
    · unfold IsoManagerJs.fetchData
      rw [hall url]
    · rfl
  | succ n ih =>
    constructor
    · unfold IsoManagerJs.fetchData
      rw [hall url]
      exact (ih (resolveURL (locOf url) url)).1
    · unfold IsoManagerJs.followRedirects
      rw [hall2 url]
      show (if (301 : Nat) = 301 ∨ (301 : Nat) = 302 then
          IsoManagerJs.followRedirects respond2 resolveURL
            (resolveURL (locOf url) url) n
        else url) = _
      rw [if_pos (Or.inl rfl), (ih (resolveURL (locOf url) url)).2,
        Function.iterate_succ_apply]

/-- Witness for `c3_amended`: an everywhere-redirecting oracle appending an
`"x"` per hop. -/
theorem c3_amended_witness :
    IsoManagerJs.fetchData (fun u => FetchResp.redirect (u ++ "x"))
        literalResolve "u" 5 = Except.error "Too many redirects" ∧
    IsoManagerJs.followRedirects (fun u => some (301, u ++ "x"))
        literalResolve "u" 5 = "uxxxxx" := by
  have h := c3_amended (fun u => FetchResp.redirect (u ++ "x"))
    (fun u => some (301, u ++ "x")) literalResolve (fun u => u ++ "x") "u" 5
    (fun _ => rfl) (fun _ => rfl)
  refine ⟨h.1, ?_⟩
  rw [h.2]
  rfl

/-! ## verifyFile -/

/-- JS truthiness of an optional string: `undefined`, `null` and `""` are
falsy. -/
def jsTruthy : Option String → Bool
  | some s => s ≠ ""
  | none => false

namespace IsoManagerJs

/-- The object resolved by `IsoManager.verifyFile`. -/
structure VerifyResult where
  filePath : String
  hash : String
  expectedHash : Option String
  algorithm : String
  isValid : Bool
  message : String
deriving Repr, DecidableEq

/-- `IsoManager.verifyFile({filePath, expectedHash, algorithm})`
(iso-manager.js 1169–1193).  `fileExists` models `fs.existsSync(filePath)`
and `fileBytes` the file's contents fed to `calculateFileHash`.  The source
computes

    const isValid = expectedHash
      ? (hash.toLowerCase() === expectedHash.toLowerCase()) : true;

so a missing or empty (falsy) `expectedHash` yields `isValid: true`. -/
def verifyFile (digest : List Nat → String) (fileExists : Bool)
    (fileBytes : List Nat) (filePath : String) (expectedHash : Option String)
    (algorithm : String) : Except String VerifyResult :=
  if fileExists = false then Except.error ("File not found: " ++ filePath)
  else
    let hash := digest fileBytes
    let isValid :=
      if jsTruthy expectedHash then
        decide (jsToLower hash = jsToLower (expectedHash.getD ""))
      else true
    Except.ok { filePath := filePath, hash := hash, expectedHash := expectedHash,
                algorithm := algorithm, isValid := isValid,
                message := if isValid then "Hash verified successfully"
                           else "Hash verification failed" }

end IsoManagerJs

/-- **C10.** For every existing file, `verifyFile` called with a missing or
empty `expectedHash` returns `isValid == true` together with the computed
hash: verification vacuously succeeds rather than failing or raising. -/
theorem c10_verifyFile_vacuous_success (digest : List Nat → String)
    (fileBytes : List Nat) (filePath algorithm : String)
    (expectedHash : Option String)
    (h : expectedHash = none ∨ expectedHash = some "") :
    IsoManagerJs.verifyFile digest true fileBytes filePath expectedHash algorithm =
      Except.ok { filePath := filePath, hash := digest fileBytes,
                  expectedHash := expectedHash, algorithm := algorithm,
                  isValid := true, message := "Hash verified successfully" } := by
  rcases h with h | h <;> subst h <;> rfl

/-- Witness for `c10_verifyFile_vacuous_success` at a concrete digest and
file. -/
theorem c10_verifyFile_vacuous_success_witness :
    IsoManagerJs.verifyFile (fun bytes => toString bytes.length) true [7, 7]
        "/iso/a.iso" none "sha256" =
      Except.ok { filePath := "/iso/a.iso", hash := "2", expectedHash := none,
                  algorithm := "sha256", isValid := true,
                  message := "Hash verified successfully" } :=
  c10_verifyFile_vacuous_success (fun bytes => toString bytes.length) [7, 7]
    "/iso/a.iso" "sha256" none (Or.inl rfl)

/-! ## Hash extraction from checksum files

Two implementations exist in the repository:
`extractHashFromFile` in iso-hash-verifier.js (23–73) and
`extractHashFromFile` in iso-manager.js (476–524).  The latter builds its
regular expressions from JavaScript *template literals*, in which `\s` and
`\*` are not escape sequences: the backslash is dropped, so the source text

    new RegExp(`^([a-fA-F0-9]{32,128})\s+(?:\*|\s)${escapeRegExp(filename)}$`)

produces the pattern text `^([a-fA-F0-9]{32,128})s+(?:*|s)...$`, and `(?:*|s)`
is an invalid pattern (a quantifier with nothing to repeat): the `RegExp`
constructor throws a `SyntaxError`.  That constructor call is the first
statement executed for every non-blank line, so the iso-manager.js variant
throws on any content that has a non-blank line. -/

/-- Bool substring containment on character lists (JS
`String.prototype.includes`). -/
def containsSeg : List Char → List Char → Bool
  | needle, [] => needle.isEmpty
  | needle, c :: t => needle.isPrefixOf (c :: t) || containsSeg needle t

/-- The regex character class `[\s*]` used by the iso-hash-verifier.js
patterns: whitespace or a literal asterisk. -/
def isSepChar (c : Char) : Bool :=
  c.isWhitespace || c = '*'

/-- The match of `/^([0-9a-fA-F]+)[\s*]+([^\s].*)$/` against one line
(iso-hash-verifier.js line 35), returning the first capture group.

Hand-compilation of the regex: the greedy `([0-9a-fA-F]+)` is forced to the
maximal hex prefix (no hex character is in `[\s*]`, so backtracking it can
never help); then `[\s*]+` is forced to the maximal separator run; `([^\s].*)`
then matches when a character follows (it is not a separator, hence not
whitespace).  When the separator run reaches the end of the line the engine
backtracks `[\s*]+`: `[^\s]` can still match a literal `'*'` inside the run,
provided at least one separator precedes it — hence the `(seps.drop 1)`
condition. -/
def hvFormat1 (line : List Char) : Option (List Char) :=
  let hex := line.takeWhile isHexChar
  let rest := line.dropWhile isHexChar
  if hex.isEmpty then none
  else
    let seps := rest.takeWhile isSepChar
    let rest2 := rest.dropWhile isSepChar
    if seps.isEmpty then none
    else
      match rest2 with
      | _ :: _ => some hex
      | [] => if (seps.drop 1).contains '*' then some hex else none

/-- The match of `/^([^\s].*)[\s*]+([0-9a-fA-F]+)$/` against one line
(iso-hash-verifier.js line 41), returning the second capture group.

Hand-compilation: anchored at both ends, `([0-9a-fA-F]+)$` can only be the
maximal trailing hex run (a shorter run would be preceded by a hex character,
which `[\s*]+` cannot match); the character before that run must be in
`[\s*]`; the greedy `([^\s].*)` then needs at least one character before the
separator, and its first character — the first character of the line — must
not be whitespace. -/
def hvAltFormat (line : List Char) : Option (List Char) :=
  match line with
  | [] => none
  | c0 :: _ =>
    if c0.isWhitespace then none
    else
      let r := line.reverse
      let hexR := r.takeWhile isHexChar
      let rest := r.dropWhile isHexChar
      if hexR.isEmpty then none
      else
        match rest with
        | [] => none
        | s :: rest2 =>
          if isSepChar s && !rest2.isEmpty then some hexR.reverse else none

/-- The line lookup of iso-hash-verifier.js 27–30: the first line that
contains the filename case-insensitively, does not start with `#` or `//`,
and is not blank. -/
def hvFindLine (fileContent filename : String) : Option String :=
  ((splitOnChar '\n' fileContent.toList).map String.mk).find? (fun line =>
    containsSeg (jsToLower filename).toList (jsToLower line).toList &&
    !(jsStartsWith line "#") && !(jsStartsWith line "//") &&
    (jsTrim line != ""))

namespace Verifier

/-- `extractHashFromFile(fileContent, filename, hashAlgorithm)` from
iso-hash-verifier.js 23–73.  Format 1 parses the found filename line with the
two regexes above; Format 2 — the JSON probing block of lines 48–65 — is
abstracted as the `jsonLookup` parameter (it runs inside `try`, swallowing
parse failures, and yields a hash only for JSON objects of the shapes
`hashes[filename][alg]`, `[filename][alg]` or `[alg][filename]`); Format 3
accepts content whose entire trimmed text is one hex string — of *any*
length, no length check is present.  Returns `none` (`null`) when nothing
matches. -/
def extractHashFromFile (jsonLookup : String → String → String → Option String)
    (fileContent filename hashAlgorithm : String) : Option String :=
  let fromLine :=
    match hvFindLine fileContent filename with
    | some hashLine =>
      match hvFormat1 hashLine.toList with
      | some h => some (jsToLower (String.mk h))
      | none =>
        match hvAltFormat hashLine.toList with
        | some h => some (jsToLower (String.mk h))
        | none => none
    | none => none
  match fromLine with
  | some h => some h
  | none =>
    match jsonLookup fileContent filename hashAlgorithm with
    | some h => some h
    | none =>
      let t := jsTrim fileContent
      if (t != "") && t.toList.all isHexChar then some (jsToLower t) else none

end Verifier

/-- The JSON probing block's result for content that is not a JSON object of
one of the three recognized shapes — in particular for any content that
`JSON.parse` rejects, such as plain checksum text or a bare hex string with
letters in it. -/
def jsonNone : String → String → String → Option String := fun _ _ _ => none

namespace IsoManagerJs

/-- `extractHashFromFile(fileContent, filename, hashAlgorithm)` from
iso-manager.js 476–524.  Empty or whitespace-only content returns `''`
(line 478).  The per-line loop skips blank lines; for the first non-blank
line it constructs `hashFirstRegex` (line 491) from a template literal in
which `\s` and `\*` cook to plain `s` and `*`, yielding the invalid pattern
fragment `(?:*|s)` — so the `RegExp` constructor throws a `SyntaxError`
(`nothing to repeat`) before any matching can occur.  The function therefore
throws on every input that has a non-blank line; the remaining formats —
including the single-hash branch of lines 513–520 — are unreachable. -/
def extractHashFromFile (fileContent filename hashAlgorithm : String) :
    Except String String :=
  if jsTrim fileContent == "" then Except.ok ""
  else if ((splitOnChar '\n' fileContent.toList).map String.mk).any
      (fun l => jsTrim l != "") then
    Except.error "SyntaxError: Invalid regular expression: nothing to repeat"
  else Except.ok ""

/-- The expected single-hash length of iso-manager.js line 516:

    const expectedLength = hashAlgorithm === 'md5' ? 32
      : hashAlgorithm === 'sha1' ? 40 : 64;

Every algorithm other than md5 and sha1 — sha512 included — gets `64`. -/
def expectedHexLength (hashAlgorithm : String) : Nat :=
  if hashAlgorithm == "md5" then 32
  else if hashAlgorithm == "sha1" then 40
  else 64

end IsoManagerJs

theorem splitOnChar_ne_nil (sep : Char) (l : List Char) : splitOnChar sep l ≠ [] := by
  cases l with
  | nil => simp [splitOnChar]
  | cons c cs =>
    simp only [splitOnChar]
    split
    · simp
    · split <;> simp

theorem mem_splitOnChar {sep : Char} {l : List Char} {c : Char}
    (hc : c ∈ l) (hne : c ≠ sep) : ∃ p ∈ splitOnChar sep l, c ∈ p := by
  induction l with
  | nil => cases hc
  | cons a cs ih =>
    rcases List.mem_cons.mp hc with rfl | hmem
    · cases hr : splitOnChar sep cs with
      | nil => exact absurd hr (splitOnChar_ne_nil sep cs)
      | cons q t =>
        refine ⟨c :: q, ?_, List.mem_cons_self c q⟩
        simp [splitOnChar, hne, hr]
    · rcases ih hmem with ⟨p, hp, hcp⟩
      by_cases ha : a = sep
      · refine ⟨p, ?_, hcp⟩
        simp [splitOnChar, ha, hp]
      · cases hr : splitOnChar sep cs with
        | nil => exact absurd hr (splitOnChar_ne_nil sep cs)
        | cons q t =>
          rcases List.mem_cons.mp (hr ▸ hp) with rfl | hpt
          · refine ⟨a :: p, ?_, List.mem_cons_of_mem a hcp⟩
            simp [splitOnChar, ha, hr]
          · refine ⟨p, ?_, hcp⟩
            simp [splitOnChar, ha, hr, hpt]

theorem dropWhile_eq_nil_of_all {p : Char → Bool} {l : List Char}
    (h : ∀ c ∈ l, p c) : l.dropWhile p = [] := by
  induction l with
  | nil => rfl
  | cons a t ih =>
    simp only [List.dropWhile]
    rw [h a (List.mem_cons_self a t)]
    exact ih fun c hc => h c (List.mem_cons_of_mem a hc)

theorem jsTrim_of_all_ws {l : List Char} (h : ∀ c ∈ l, c.isWhitespace) :
    jsTrim (String.mk l) = "" := by
  unfold jsTrim
  have h1 : l.dropWhile Char.isWhitespace = [] := dropWhile_eq_nil_of_all h
  show String.mk (((l.dropWhile Char.isWhitespace).reverse.dropWhile
    Char.isWhitespace).reverse) = ""
  rw [h1]
  rfl

theorem mem_dropWhile_of_not {p : Char → Bool} {l : List Char} {c : Char}
    (hc : c ∈ l) (hp : ¬ p c = true) : c ∈ l.dropWhile p := by
  rcases (List.mem_append.mp ((List.takeWhile_append_dropWhile (p := p) (l := l)) ▸ hc))
    with h | h
  · exact absurd (List.mem_takeWhile_imp h) hp
  · exact h

theorem jsTrim_ne_empty {l : List Char} {c : Char} (hc : c ∈ l)
    (hw : ¬ c.isWhitespace = true) : jsTrim (String.mk l) ≠ "" := by
  have h1 : c ∈ l.dropWhile Char.isWhitespace := mem_dropWhile_of_not hc hw
  have h2 : c ∈ (l.dropWhile Char.isWhitespace).reverse := List.mem_reverse.mpr h1
  have h3 : c ∈ (l.dropWhile Char.isWhitespace).reverse.dropWhile Char.isWhitespace :=
    mem_dropWhile_of_not h2 hw
  have h4 : c ∈ ((l.dropWhile Char.isWhitespace).reverse.dropWhile
      Char.isWhitespace).reverse := List.mem_reverse.mpr h3
  intro he
  have hnil : (jsTrim (String.mk l)).data = [] := by rw [he]
  unfold jsTrim at hnil
  simp only [String.toList] at hnil
  rw [hnil] at h4
  cases h4

/-- Any content whose trim is non-empty has a non-blank line among its
newline-separated lines. -/
theorem any_nonblank_of_trim_ne {fileContent : String}
    (h : jsTrim fileContent ≠ "") :
    ((splitOnChar '\n' fileContent.toList).map String.mk).any
      (fun l => jsTrim l != "") = true := by
  have hex : ∃ c ∈ fileContent.toList, ¬ c.isWhitespace = true := by
    by_contra hno
    push_neg at hno
    exact h (jsTrim_of_all_ws fun c hc => hno c hc)
  obtain ⟨c, hc, hw⟩ := hex
  have hcsep : c ≠ '\n' := by
    intro he
    subst he
    exact hw (by decide)
  obtain ⟨p, hp, hcp⟩ := mem_splitOnChar hc hcsep
  apply List.any_eq_true.mpr
  refine ⟨String.mk p, List.mem_map_of_mem _ hp, ?_⟩
  have := jsTrim_ne_empty hcp hw
  simpa [bne_iff_ne] using this

/-- The specification's fixture: a 64-hex-character digest (upper-case here,
to exercise the lower-case normalization), two spaces, and the target
filename. -/
def coreutilsFixture : String :=
  "DEADBEEFDEADBEEFDEADBEEFDEADBEEFDEADBEEFDEADBEEFDEADBEEFDEADBEEF  ubuntu-22.04.iso"

/-- **C4.** The intended behaviour — return the lower-cased hash from a
coreutils-style `<hash>␠␠<filename>` line, and not-found on unrelated content
without throwing — holds for the iso-hash-verifier.js implementation, whereas
the iso-manager.js implementation throws a `SyntaxError` while constructing
its first regular expression (its template literal drops the backslashes of
`\s`/`\*`, leaving the invalid fragment `(?:*|s)`), at the very input the
claim describes. -/
theorem c4_coreutils_parse :
    (∀ jsonLookup, Verifier.extractHashFromFile jsonLookup coreutilsFixture
        "ubuntu-22.04.iso" "sha256" =
      some "deadbeefdeadbeefdeadbeefdeadbeefdeadbeefdeadbeefdeadbeefdeadbeef") ∧
    Verifier.extractHashFromFile jsonNone "This file has no checksums at all."
        "ubuntu-22.04.iso" "sha256" = none ∧
    IsoManagerJs.extractHashFromFile coreutilsFixture "ubuntu-22.04.iso" "sha256" =
      Except.error "SyntaxError: Invalid regular expression: nothing to repeat" := by
  refine ⟨fun jsonLookup => ?_, rfl, rfl⟩
  rfl

/-- **C5 counterexample.** `extractHashFromFile` in iso-hash-verifier.js
accepts a single-hex-string file of length 6 for sha256 (the claim requires
64), and `extractHashFromFile` in iso-manager.js does not even accept a
single hex string of the correct length 64 — it throws before the length
check can run. -/
theorem c5_counterexample :
    Verifier.extractHashFromFile jsonNone "abc123" "ubuntu-22.04.iso" "sha256" =
      some "abc123" ∧
    IsoManagerJs.extractHashFromFile
        "3b7a2cd3622abf07f4d38cf15eee17e9b62c5e399f9a383d1b54c46351c2b2b2"
        "ubuntu-22.04.iso" "sha256" =
      Except.error "SyntaxError: Invalid regular expression: nothing to repeat" := by
  exact ⟨rfl, rfl⟩

/-- **C5 amended.** For a checksum file whose entire trimmed content is a
single hex string (and which triggers neither the filename-line formats nor
the JSON format): the iso-hash-verifier.js implementation accepts it at *any*
length, returning it lower-cased — it has no length check; the iso-manager.js
implementation never accepts it, throwing its regex `SyntaxError` first — and
even its unreachable length table expects 32/40/64 for md5/sha1/anything
else, so sha512 would be checked against 64, not 128. -/
theorem c5_amended (jsonLookup : String → String → String → Option String)
    (fileContent filename hashAlgorithm : String)
    (hnoline : hvFindLine fileContent filename = none)
    (hjson : jsonLookup fileContent filename hashAlgorithm = none)
    (htrim : jsTrim fileContent ≠ "")
    (hhex : (jsTrim fileContent).toList.all isHexChar = true) :
    Verifier.extractHashFromFile jsonLookup fileContent filename hashAlgorithm =
      some (jsToLower (jsTrim fileContent)) ∧
    IsoManagerJs.extractHashFromFile fileContent filename hashAlgorithm =
      Except.error "SyntaxError: Invalid regular expression: nothing to repeat" ∧
    IsoManagerJs.expectedHexLength "md5" = 32 ∧
    IsoManagerJs.expectedHexLength "sha1" = 40 ∧
    IsoManagerJs.expectedHexLength "sha256" = 64 ∧
    IsoManagerJs.expectedHexLength "sha512" = 64 := by
  refine ⟨?_, ?_, rfl, rfl, rfl, rfl⟩
  · unfold Verifier.extractHashFromFile
    rw [hnoline]
    dsimp only
    rw [hjson]
    dsimp only
    have hcond : ((jsTrim fileContent != "") &&
        (jsTrim fileContent).toList.all isHexChar) = true := by
      rw [Bool.and_eq_true]
      exact ⟨bne_iff_ne.mpr htrim, hhex⟩
    rw [if_pos hcond]
  · unfold IsoManagerJs.extractHashFromFile
    rw [if_neg (by simp [htrim]), if_pos (any_nonblank_of_trim_ne htrim)]

/-- Witness for `c5_amended`: a six-character upper-case hex file checked as
sha512. -/
theorem c5_amended_witness :
    Verifier.extractHashFromFile jsonNone "ABC123" "x.iso" "sha512" =
      some "abc123" ∧
    IsoManagerJs.extractHashFromFile "ABC123" "x.iso" "sha512" =
      Except.error "SyntaxError: Invalid regular expression: nothing to repeat" := by
  have h := c5_amended jsonNone "ABC123" "x.iso" "sha512" rfl rfl (by decide) (by decide)
  refine ⟨?_, h.2.1⟩
  rw [h.1]
  rfl

/-! ## Archive catalog -/

/-- One record of the `isos.json` catalog (`{ name, filename, version, hash,
size, addedDate }`); absent string fields are `""`, an absent size is `0`. -/
structure IsoRecord where
  name : String
  filename : String
  version : String
  hash : String
  size : Nat
  addedDate : String
deriving Repr, DecidableEq

/-- JavaScript `Array.prototype.findIndex`, with `none` for `-1`. -/
def jsFindIndex {α : Type} (p : α → Bool) : List α → Option Nat
  | [] => none
  | a :: l => if p a then some 0 else (jsFindIndex p l).map (· + 1)

/-- Consume a leading `'.'` followed by one or more digits, repeatedly
(greedy `(\.\d+)+`); returns the group count and the remainder.  Fuel-driven
structural recursion; called with the remainder's length as fuel, which
bounds the iteration count. -/
def eatDotDigitGroups : Nat → List Char → Nat × List Char
  | 0, l => (0, l)
  | fuel + 1, l =>
    match l with
    | '.' :: r =>
      let d := r.takeWhile Char.isDigit
      let r2 := r.dropWhile Char.isDigit
      if d.isEmpty then (0, l)
      else
        let (n, r3) := eatDotDigitGroups fuel r2
        (n + 1, r3)
    | _ => (0, l)

/-- A match of `[-_]?\d+(\.\d+)+[-_]?` anchored at the head of the list,
returning the remainder after the match.  The optional leading `[-_]`
commits only when digits follow (the regex's retry without it can never
succeed, because the alternatives all require a digit first). -/
def matchVersionAt (l : List Char) : Option (List Char) :=
  let start :=
    match l with
    | c :: r => if c = '-' || c = '_' then r else l
    | [] => l
  let d := start.takeWhile Char.isDigit
  let r1 := start.dropWhile Char.isDigit
  if d.isEmpty then none
  else
    let (n, r2) := eatDotDigitGroups r1.length r1
    if n = 0 then none
    else
      match r2 with
      | c :: rest => if c = '-' || c = '_' then some rest else some r2
      | [] => some []

/-- Strip `pat` from the head of `l`. -/
def stripPrefixChars : List Char → List Char → Option (List Char)
  | [], l => some l
  | _ :: _, [] => none
  | p :: ps, c :: cs => if c = p then stripPrefixChars ps cs else none

/-- First alternative of an ordered regex alternation matching at the head. -/
def matchAltAt : List (List Char) → List Char → Option (List Char)
  | [], _ => none
  | a :: rest, l =>
    match stripPrefixChars a l with
    | some r => some r
    | none => matchAltAt rest l

/-- A match of `[-_]?(alt1|alt2|…)[-_]?` anchored at the head, returning the
remainder.  As with `matchVersionAt`, the optional leading `[-_]` commits
only when an alternative follows. -/
def matchTokenAt (alts : List (List Char)) (l : List Char) : Option (List Char) :=
  let start :=
    match l with
    | c :: r => if c = '-' || c = '_' then r else l
    | [] => l
  match matchAltAt alts start with
  | none => none
  | some r2 =>
    match r2 with
    | c :: rest => if c = '-' || c = '_' then some rest else some r2
    | [] => some []

/-- JavaScript `String.prototype.replace` with a global regex and an empty
replacement: scan left to right, delete each match of `matchAt` and continue
after it, copy non-matching characters.  Fuel-driven; every `matchAt` used
here consumes at least one character, so the input length is enough fuel. -/
def replaceAllAux (matchAt : List Char → Option (List Char)) :
    Nat → List Char → List Char
  | 0, l => l
  | _ + 1, [] => []
  | fuel + 1, c :: cs =>
    match matchAt (c :: cs) with
    | some rest => replaceAllAux matchAt fuel rest
    | none => c :: replaceAllAux matchAt fuel cs

/-- Global regex deletion over a character list. -/
def replaceAll (matchAt : List Char → Option (List Char)) (l : List Char) :
    List Char :=
  replaceAllAux matchAt l.length l

/-- The alternation `(amd64|x86_64|i386|x86|arm64)`, in source order. -/
def archAlts : List (List Char) :=
  ["amd64".toList, "x86_64".toList, "i386".toList, "x86".toList, "arm64".toList]

/-- The alternation `(live|desktop|server|netinst|dvd|cd)`, in source
order. -/
def editionAlts : List (List Char) :=
  ["live".toList, "desktop".toList, "server".toList, "netinst".toList,
   "dvd".toList, "cd".toList]

/-- `normalizeIsoName(name)` (iso-manager-web/index.html 754–770): lower-case;
drop an `.iso`/`.img`/`.esd` extension (the anchored, non-global replace can
only remove the suffix); globally delete `[-_]?\d+(\.\d+)+[-_]?`, then
`[-_]?(amd64|x86_64|i386|x86|arm64)[-_]?`, then
`[-_]?(live|desktop|server|netinst|dvd|cd)[-_]?`; finally keep only
`[a-z0-9]`. -/
def normalizeIsoName (name : String) : String :=
  let lower := name.toList.map Char.toLower
  let noExt :=
    if [".iso", ".img", ".esd"].any (fun e => e.toList.isSuffixOf lower) then
      lower.take (lower.length - 4)
    else lower
  let noVer := replaceAll matchVersionAt noExt
  let noArch := replaceAll (matchTokenAt archAlts) noVer
  let noEd := replaceAll (matchTokenAt editionAlts) noArch
  String.mk (noEd.filter fun c => ('a' ≤ c && c ≤ 'z') || ('0' ≤ c && c ≤ '9'))

/-- Search for the leftmost match of `/[\d]+(\.[\d]+)+/`, one start position
at a time, returning the matched text. -/
def extractVersionAux : Nat → List Char → Option (List Char)
  | 0, _ => none
  | _ + 1, [] => none
  | fuel + 1, c :: cs =>
    let d := (c :: cs).takeWhile Char.isDigit
    let r1 := (c :: cs).dropWhile Char.isDigit
    if !d.isEmpty then
      let (n, r2) := eatDotDigitGroups r1.length r1
      if n ≠ 0 then some ((c :: cs).take ((c :: cs).length - r2.length))
      else extractVersionAux fuel cs
    else extractVersionAux fuel cs

/-- `extractVersionFromFilename(filename)` (iso-manager-web/index.html
773–777): the first `/[\d]+(\.[\d]+)+/` match, or `""` for `null`. -/
def extractVersionFromFilename (filename : String) : String :=
  match extractVersionAux filename.toList.length filename.toList with
  | some v => String.mk v
  | none => ""

namespace Web

/-- The `isoData` object built by `addIsoToJson`
(iso-manager-web/index.html 1349–1356): `version` falls back to
`extractVersionFromFilename(filename)` when `iso.version` is falsy;
`addedDate` — `new Date().toISOString()` in the source — is a parameter. -/
def mkIsoData (isoName isoVersion filename hash : String) (size : Nat)
    (addedDate : String) : IsoRecord :=
  { name := isoName, filename := filename,
    version := if isoVersion ≠ "" then isoVersion
               else extractVersionFromFilename filename,
    hash := hash, size := size, addedDate := addedDate }

/-- `addIsoToJson(iso, filename, hash, size)`
(iso-manager-web/index.html 1335–1369) as a transformation of the `isos`
array: find an existing entry by exact `filename`, falling back to a
normalized-name match on `iso.name`; replace that entry wholesale, or append
a new one. -/
def addIsoToJson (isos : List IsoRecord) (isoName isoVersion filename hash : String)
    (size : Nat) (addedDate : String) : List IsoRecord :=
  let existingIndex :=
    match jsFindIndex (fun item => item.filename == filename) isos with
    | some i => some i
    | none =>
      jsFindIndex (fun item => normalizeIsoName item.name == normalizeIsoName isoName) isos
  let isoData := mkIsoData isoName isoVersion filename hash size addedDate
  match existingIndex with
  | some i => isos.set i isoData
  | none => isos ++ [isoData]

end Web

namespace Patch

/-- `updateIsosJson(meta, archiveDir, remove)` (src/unnamed/part_003
1821–1840) as a transformation of the `isos` array: drop any entry with
`meta`'s filename, then push `meta` unless `remove` is set. -/
def updateIsosJson (isos : List IsoRecord) (meta : IsoRecord) (remove : Bool) :
    List IsoRecord :=
  let isos2 := isos.filter fun i => i.filename != meta.filename
  if remove then isos2 else isos2 ++ [meta]

end Patch

section FindIndexLemmas

variable {α : Type} {p : α → Bool}

theorem jsFindIndex_eq_none_iff {l : List α} :
    jsFindIndex p l = none ↔ ∀ a ∈ l, p a = false := by
  induction l with
  | nil => simp [jsFindIndex]
  | cons a l ih =>
    simp only [jsFindIndex]
    by_cases hpa : p a = true
    · simp [hpa]
    · rw [if_neg hpa]
      simp only [Option.map_eq_none', ih, List.mem_cons]
      constructor
      · intro hall b hb
        rcases hb with rfl | hb
        · exact Bool.eq_false_iff.mpr hpa
        · exact hall b hb
      · intro hall b hb
        exact hall b (Or.inr hb)

theorem jsFindIndex_append_singleton {l : List α} {d : α}
    (hl : jsFindIndex p l = none) (hd : p d = true) :
    jsFindIndex p (l ++ [d]) = some l.length := by
  induction l with
  | nil => simp [jsFindIndex, hd]
  | cons a l ih =>
    simp only [jsFindIndex] at hl
    by_cases hpa : p a = true
    · simp [hpa] at hl
    · rw [if_neg hpa] at hl
      simp only [Option.map_eq_none'] at hl
      show jsFindIndex p (a :: (l ++ [d])) = some (l.length + 1)
      simp only [jsFindIndex, if_neg hpa]
      rw [ih hl]
      rfl

theorem set_append_last {l : List α} {b : α} :
    (l ++ [b]).set l.length b = l ++ [b] := by
  induction l with
  | nil => rfl
  | cons a l ih => simp [List.set, ih]

theorem set_append_length {l : List α} {a b : α} :
    (l ++ [a]).set l.length b = l ++ [b] := by
  induction l with
  | nil => rfl
  | cons x l ih => simp [List.set, ih]

theorem jsFindIndex_set_self {l : List α} {i : Nat} {a : α}
    (hidx : jsFindIndex p l = some i) (ha : p a = true) :
    jsFindIndex p (l.set i a) = some i := by
  induction l generalizing i with
  | nil => cases hidx
  | cons x l ih =>
    simp only [jsFindIndex] at hidx
    by_cases hpx : p x = true
    · rw [if_pos hpx] at hidx
      cases hidx
      simp [List.set, jsFindIndex, ha]
    · rw [if_neg hpx] at hidx
      rcases Option.map_eq_some'.mp hidx with ⟨j, hj, rfl⟩
      simp [List.set, jsFindIndex, hpx, ih hj]

theorem countP_set_of_found {l : List α} {i : Nat} {a : α}
    (hidx : jsFindIndex p l = some i) (ha : p a = true) :
    (l.set i a).countP p = l.countP p := by
  induction l generalizing i with
  | nil => cases hidx
  | cons x l ih =>
    simp only [jsFindIndex] at hidx
    by_cases hpx : p x = true
    · rw [if_pos hpx] at hidx
      cases hidx
      simp [List.set, List.countP_cons, ha, hpx]
    · rw [if_neg hpx] at hidx
      rcases Option.map_eq_some'.mp hidx with ⟨j, hj, rfl⟩
      simp [List.set, List.countP_cons, ih hj]

theorem countP_pos_of_found {l : List α} {i : Nat}
    (hidx : jsFindIndex p l = some i) : 1 ≤ l.countP p := by
  induction l generalizing i with
  | nil => cases hidx
  | cons x l ih =>
    simp only [jsFindIndex] at hidx
    by_cases hpx : p x = true
    · simp [List.countP_cons, hpx]
    · rw [if_neg hpx] at hidx
      rcases Option.map_eq_some'.mp hidx with ⟨j, hj, rfl⟩
      calc 1 ≤ l.countP p := ih hj
        _ ≤ (x :: l).countP p := by simp [List.countP_cons]

theorem find?_set_of_found {l : List α} {i : Nat} {a : α}
    (hidx : jsFindIndex p l = some i) (ha : p a = true) :
    (l.set i a).find? p = some a := by
  induction l generalizing i with
  | nil => cases hidx
  | cons x l ih =>
    simp only [jsFindIndex] at hidx
    by_cases hpx : p x = true
    · rw [if_pos hpx] at hidx
      cases hidx
      simp [List.set, List.find?, ha]
    · rw [if_neg hpx] at hidx
      rcases Option.map_eq_some'.mp hidx with ⟨j, hj, rfl⟩
      simp only [List.set, List.find?]
      rw [Bool.eq_false_iff.mpr hpx]
      exact ih hj

theorem filter_not_set_of_found {l : List α} {i : Nat} {a : α}
    (hidx : jsFindIndex p l = some i) (ha : p a = true) :
    (l.set i a).filter (fun x => !(p x)) = l.filter (fun x => !(p x)) := by
  induction l generalizing i with
  | nil => cases hidx
  | cons x l ih =>
    simp only [jsFindIndex] at hidx
    by_cases hpx : p x = true
    · rw [if_pos hpx] at hidx
      cases hidx
      simp [List.set, List.filter_cons, ha, hpx]
    · rw [if_neg hpx] at hidx
      rcases Option.map_eq_some'.mp hidx with ⟨j, hj, rfl⟩
      simp [List.set, List.filter_cons, ih hj]

theorem find?_eq_none_of_all {l : List α}
    (h : ∀ a ∈ l, p a = false) : l.find? p = none := by
  induction l with
  | nil => rfl
  | cons x l ih =>
    simp only [List.find?]
    rw [h x (List.mem_cons_self x l)]
    exact ih fun a ha => h a (List.mem_cons_of_mem x ha)

end FindIndexLemmas

theorem find?_append_right {α : Type} {p : α → Bool} {l1 l2 : List α}
    (h : ∀ a ∈ l1, p a = false) : (l1 ++ l2).find? p = l2.find? p := by
  induction l1 with
  | nil => rfl
  | cons x l ih =>
    simp only [List.cons_append, List.find?]
    rw [h x (List.mem_cons_self x l)]
    exact ih fun a ha => h a (List.mem_cons_of_mem x ha)

theorem addIsoToJson_of_found {isos : List IsoRecord}
    {isoName isoVersion filename hash : String} {size : Nat} {addedDate : String}
    {i : Nat}
    (hidx : jsFindIndex (fun item => item.filename == filename) isos = some i) :
    Web.addIsoToJson isos isoName isoVersion filename hash size addedDate =
      isos.set i (Web.mkIsoData isoName isoVersion filename hash size addedDate) := by
  unfold Web.addIsoToJson
  rw [hidx]

theorem addIsoToJson_of_notfound {isos : List IsoRecord}
    {isoName isoVersion filename hash : String} {size : Nat} {addedDate : String}
    (hidx : jsFindIndex (fun item => item.filename == filename) isos = none)
    (hnorm : jsFindIndex
      (fun item => normalizeIsoName item.name == normalizeIsoName isoName) isos = none) :
    Web.addIsoToJson isos isoName isoVersion filename hash size addedDate =
      isos ++ [Web.mkIsoData isoName isoVersion filename hash size addedDate] := by
  unfold Web.addIsoToJson
  rw [hidx, hnorm]

/-- The archived 22.04 desktop record used in the C7 scenario. -/
def archivedUbuntu : IsoRecord :=
  { name := "ubuntu-22.04-desktop-amd64.iso",
    filename := "ubuntu-22.04-desktop-amd64.iso",
    version := "22.04", hash := "aa11", size := 100,
    addedDate := "2024-01-01T00:00:00.000Z" }

/-- **C7 counterexample.** Two `add()` calls carrying the same filename
`ubuntu-22.04.3-desktop-amd64.iso`, against a catalog holding only the 22.04
desktop record: the first call's normalized-name fallback *replaces* the
22.04 record (both names normalize to `"ubuntu"`), so afterwards the record
for the other filename `ubuntu-22.04-desktop-amd64.iso` is gone — "records
for other filenames are unchanged" fails. -/
theorem c7_counterexample :
    (Web.addIsoToJson (Web.addIsoToJson [archivedUbuntu] "Ubuntu 22.04.3" ""
        "ubuntu-22.04.3-desktop-amd64.iso" "bb22" 200 "2024-06-01T00:00:00.000Z")
        "Ubuntu 22.04.3" "" "ubuntu-22.04.3-desktop-amd64.iso" "bb22" 200
        "2024-06-01T00:00:00.000Z").find?
      (fun r => r.filename == "ubuntu-22.04-desktop-amd64.iso") = none ∧
    [archivedUbuntu].find?
      (fun r => r.filename == "ubuntu-22.04-desktop-amd64.iso") =
        some archivedUbuntu := by
  exact ⟨rfl, rfl⟩

/-- **C7 amended.** After two `add()` calls with the same filename `f` on a
catalog with at most one record per filename, the catalog holds exactly one
record for `f`, and it is the second call's data wholesale; records for other
filenames are unchanged *provided* no existing record of a different filename
normalizes to the same name as the added entry (otherwise the first call
replaces that record).  The `updateIsosJson` upsert of src/unnamed/part_003
satisfies the claim as stated: it filters by filename only and appends the
new record. -/
theorem c7_amended (isos : List IsoRecord)
    (n1 v1 h1 d1 n2 v2 h2 d2 f : String) (s1 s2 : Nat)
    (meta1 meta2 : IsoRecord)
    (hcount : isos.countP (fun r => r.filename == f) ≤ 1)
    (hnorm : ∀ r ∈ isos, normalizeIsoName r.name = normalizeIsoName n1 →
      r.filename = f)
    (hmeta : meta1.filename = meta2.filename) :
    ((Web.addIsoToJson (Web.addIsoToJson isos n1 v1 f h1 s1 d1)
        n2 v2 f h2 s2 d2).countP (fun r => r.filename == f) = 1 ∧
      (Web.addIsoToJson (Web.addIsoToJson isos n1 v1 f h1 s1 d1)
        n2 v2 f h2 s2 d2).find? (fun r => r.filename == f) =
          some (Web.mkIsoData n2 v2 f h2 s2 d2) ∧
      (Web.addIsoToJson (Web.addIsoToJson isos n1 v1 f h1 s1 d1)
        n2 v2 f h2 s2 d2).filter (fun r => !(r.filename == f)) =
          isos.filter (fun r => !(r.filename == f))) ∧
    Patch.updateIsosJson (Patch.updateIsosJson isos meta1 false) meta2 false =
      isos.filter (fun i => i.filename != meta2.filename) ++ [meta2] := by
  have hp1 : (fun r : IsoRecord => r.filename == f)
      (Web.mkIsoData n1 v1 f h1 s1 d1) = true := by
    simp [Web.mkIsoData]
  have hp2 : (fun r : IsoRecord => r.filename == f)
      (Web.mkIsoData n2 v2 f h2 s2 d2) = true := by
    simp [Web.mkIsoData]
  constructor
  · cases hidx : jsFindIndex (fun item => item.filename == f) isos with
    | none =>
      have hnone : jsFindIndex
          (fun item => normalizeIsoName item.name == normalizeIsoName n1) isos =
            none := by
        rw [jsFindIndex_eq_none_iff]
        intro a ha
        rw [Bool.eq_false_iff]
        intro hcontra
        have heq : normalizeIsoName a.name = normalizeIsoName n1 :=
          beq_iff_eq.mp hcontra
        have hfa := (jsFindIndex_eq_none_iff.mp hidx) a ha
        rw [hnorm a ha heq] at hfa
        simp at hfa
      rw [addIsoToJson_of_notfound hidx hnone]
      have hidx2 : jsFindIndex (fun item => item.filename == f)
          (isos ++ [Web.mkIsoData n1 v1 f h1 s1 d1]) = some isos.length :=
        jsFindIndex_append_singleton hidx hp1
      rw [addIsoToJson_of_found hidx2, set_append_length]
      have hzero : isos.countP (fun r => r.filename == f) = 0 := by
        rw [List.countP_eq_zero]
        intro a ha
        simpa using (jsFindIndex_eq_none_iff.mp hidx) a ha
      refine ⟨?_, ?_, ?_⟩
      · rw [List.countP_append, hzero]
        simp [List.countP_cons, hp2]
      · rw [find?_append_right (fun a ha => (jsFindIndex_eq_none_iff.mp hidx) a ha)]
        simp [List.find?, hp2]
      · rw [List.filter_append]
        have hnil : [Web.mkIsoData n2 v2 f h2 s2 d2].filter
            (fun r => !(r.filename == f)) = [] := by
          simp [List.filter_cons, hp2]
        rw [hnil, List.append_nil]
    | some i =>
      rw [addIsoToJson_of_found hidx]
      have hidx2 := jsFindIndex_set_self hidx hp1
      rw [addIsoToJson_of_found hidx2, List.set_set]
      have hcnt1 : isos.countP (fun r => r.filename == f) = 1 :=
        le_antisymm hcount (countP_pos_of_found hidx)
      exact ⟨by rw [countP_set_of_found hidx hp2, hcnt1],
        find?_set_of_found hidx hp2,
        filter_not_set_of_found hidx hp2⟩
  · unfold Patch.updateIsosJson
    simp only [Bool.false_eq_true, if_false]
    rw [hmeta, List.filter_append]
    have hnil : [meta1].filter (fun i => i.filename != meta2.filename) = [] := by
      simp [List.filter_cons, hmeta]
    rw [hnil, List.append_nil, List.filter_filter]
    have hsame : (fun a : IsoRecord =>
        (a.filename != meta2.filename) && (a.filename != meta2.filename)) =
          (fun a : IsoRecord => a.filename != meta2.filename) := by
      funext a
      rw [Bool.and_self]
    rw [hsame]

/-- Witness for `c7_amended`: a concrete catalog holding an unrelated record,
a fresh filename added twice. -/
theorem c7_amended_witness :
    (Web.addIsoToJson (Web.addIsoToJson [archivedUbuntu] "Debian 12.5" ""
        "debian-12.5-amd64.iso" "cc33" 300 "2024-07-01T00:00:00.000Z")
        "Debian 12.5" "" "debian-12.5-amd64.iso" "cc33" 300
        "2024-07-01T00:00:00.000Z").countP
      (fun r => r.filename == "debian-12.5-amd64.iso") = 1 :=
  ((c7_amended [archivedUbuntu] "Debian 12.5" "" "cc33" "2024-07-01T00:00:00.000Z"
    "Debian 12.5" "" "cc33" "2024-07-01T00:00:00.000Z" "debian-12.5-amd64.iso"
    300 300 archivedUbuntu archivedUbuntu (by decide) (by decide) rfl).1).1

/-! ## Archive deletion and the path-traversal guard

POSIX path semantics (`path.sep` is `'/'`). -/

/-- Node `path.basename` (POSIX): ignore trailing separators, return the
final path segment (`".."` stays `".."`, `"/"` gives `""`). -/
def jsBasename (s : String) : String :=
  String.mk (((s.toList.reverse.dropWhile (· == '/')).takeWhile (· != '/')).reverse)

/-- Join a list of path segments with `'/'`. -/
def joinSegs : List (List Char) → List Char
  | [] => []
  | [s] => s
  | s :: rest => s ++ '/' :: joinSegs rest

/-- Parent directory of a normalized absolute path (drop the last segment;
the parent of the root is the root). -/
def parentPath (a : String) : String :=
  let segs := (splitOnChar '/' a.toList).filter (fun p => !p.isEmpty)
  String.mk ('/' :: joinSegs segs.dropLast)

/-- Node `path.join(base, seg)` for an already-normalized absolute `base` and
one separator-free segment `seg` — the only shape the DELETE endpoint
produces, since `seg` comes from `path.basename`: `""` and `"."` normalize
away, `".."` steps to the parent, anything else is appended. -/
def joinBase (base seg : String) : String :=
  if seg == "" || seg == "." then base
  else if seg == ".." then parentPath base
  else base ++ "/" ++ seg

/-- Node POSIX normalization of `path.join(base, rel)` for an absolute
`base` and an arbitrary `rel`: split on `'/'`, drop empty and `"."`
segments, pop a segment on `".."` (clamped at the root). -/
def normJoin (base rel : String) : String :=
  let segs := splitOnChar '/' (base.toList ++ '/' :: rel.toList)
  let out := segs.foldl (fun acc seg =>
      if seg.isEmpty || seg == ['.'] then acc
      else if seg == ['.', '.'] then acc.dropLast
      else acc ++ [seg]) ([] : List (List Char))
  String.mk ('/' :: joinSegs out)

/-- HTTP outcome of the DELETE `/api/iso-archive/:filename` handler. -/
inductive DeleteResponse where
  /-- 400, filename required (falsy `req.params.filename`). -/
  | badRequest
  /-- 403, `Deletion outside designated directory is forbidden.` -/
  | forbidden
  /-- 404, file not found. -/
  | notFoundFile
  /-- 200: `fs.unlink(target)` ran and `removeIsoFromJson` updated the
  catalog. -/
  | deleted (target : String)
deriving Repr, DecidableEq

namespace Web

/-- The DELETE `/api/iso-archive/:filename` handler
(iso-manager-web/index.html 1233–1284).  `resolvedArchivePath` is the
configured archive directory after `resolveArchivePath` (a normalized
absolute path); `existingFiles` lists the absolute paths for which
`fs.existsSync` is true.  The handler computes

    const fullPathToDelete = path.join(resolvedArchivePath,
                                       path.basename(filenameToDelete));

and rejects with 403 when `fullPathToDelete` does not start with
`resolvedArchivePath + path.sep`; the `fs.unlink` callback is modelled as
succeeding. -/
def deleteEndpoint (resolvedArchivePath filenameToDelete : String)
    (existingFiles : List String) : DeleteResponse :=
  if filenameToDelete == "" then DeleteResponse.badRequest
  else
    let fullPathToDelete :=
      joinBase resolvedArchivePath (jsBasename filenameToDelete)
    if !(jsStartsWith fullPathToDelete (resolvedArchivePath ++ "/")) then
      DeleteResponse.forbidden
    else if !(existingFiles.contains fullPathToDelete) then
      DeleteResponse.notFoundFile
    else DeleteResponse.deleted fullPathToDelete

end Web

/-- Outcome of the CLI `deleteArchiveIso`. -/
inductive CliDeleteResult where
  /-- `Refusing to delete file outside archive directory.` + `process.exit(1)`,
  nothing mutated. -/
  | refusedOutside
  /-- `File not found in archive` + `process.exit(1)`, nothing mutated. -/
  | missingFile
  /-- `fs.unlinkSync(target)` ran (and `isos.json` was filtered). -/
  | deletedFile (target : String)
deriving Repr, DecidableEq

namespace Patch

/-- `deleteArchiveIso(filename)` (src/unnamed/part_003 1697–1716):
`filePath = path.join(archivePath, filename)` — the raw `filename`, not its
basename — guarded by `filePath.startsWith(archivePath)` with *no* trailing
separator, so any path sharing `archivePath` as a string prefix passes. -/
def deleteArchiveIso (archivePath filename : String)
    (existingFiles : List String) : CliDeleteResult :=
  let filePath := normJoin archivePath filename
  if !(jsStartsWith filePath archivePath) then CliDeleteResult.refusedOutside
  else if !(existingFiles.contains filePath) then CliDeleteResult.missingFile
  else CliDeleteResult.deletedFile filePath

end Patch

theorem jsBasename_no_slash (s : String) :
    (jsBasename s).toList.all (· != '/') = true := by
  show (((s.toList.reverse.dropWhile (· == '/')).takeWhile
    (· != '/')).reverse).all (· != '/') = true
  rw [List.all_eq_true]
  intro c hc
  have hmem : c ∈ (s.toList.reverse.dropWhile (· == '/')).takeWhile (· != '/') :=
    List.mem_reverse.mp hc
  exact List.mem_takeWhile_imp (p := fun x => x != '/') hmem

theorem isPrefixOf_append_self (l m : List Char) : l.isPrefixOf (l ++ m) = true := by
  induction l with
  | nil => simp [List.isPrefixOf]
  | cons c t ih => simp [List.isPrefixOf, ih]

/-- **C9 counterexample.** `deleteEndpoint("../../etc/passwd")` is not
rejected with a path-traversal error: the handler reduces the name to its
basename `passwd` — when `passwd` exists in the archive it is deleted (a
filesystem mutation), otherwise the response is 404 Not Found.  Neither
outcome is the 403 traversal rejection the claim requires. -/
theorem c9_counterexample :
    Web.deleteEndpoint "/srv/ISO-Archive" "../../etc/passwd"
        ["/srv/ISO-Archive/passwd"] =
      DeleteResponse.deleted "/srv/ISO-Archive/passwd" ∧
    Web.deleteEndpoint "/srv/ISO-Archive" "../../etc/passwd" [] =
      DeleteResponse.notFoundFile := by
  exact ⟨rfl, rfl⟩

/-- **C9 amended.** The web endpoint never unlinks outside the archive: every
deletion it performs targets `archive ++ "/" ++ basename(filename)` with a
separator-free basename (so the target lies directly inside the archive
directory), and a name whose basename would still escape (`".."`, or the
empty basename) is rejected — but a traversal-shaped name is treated as its
basename (deleted when present, else 404), not rejected as traversal.  The
CLI `deleteArchiveIso` does refuse `"../../etc/passwd"`, but its
separator-less `startsWith` guard admits deletions in sibling directories
sharing the archive path as a string prefix. -/
theorem c9_amended :
    (∀ archivePath filename files,
      jsBasename filename ≠ "" → jsBasename filename ≠ "." →
      jsBasename filename ≠ ".." →
      Web.deleteEndpoint archivePath filename files =
        (if files.contains (archivePath ++ "/" ++ jsBasename filename) then
          DeleteResponse.deleted (archivePath ++ "/" ++ jsBasename filename)
        else DeleteResponse.notFoundFile) ∧
      (jsBasename filename).toList.all (· != '/') = true) ∧
    (∀ files, Web.deleteEndpoint "/srv/ISO-Archive" ".." files =
      DeleteResponse.forbidden) ∧
    (∀ files, Web.deleteEndpoint "/srv/ISO-Archive" "" files =
      DeleteResponse.badRequest) ∧
    (∀ files, Patch.deleteArchiveIso "/srv/ISO-Archive" "../../etc/passwd" files =
      CliDeleteResult.refusedOutside) ∧
    Patch.deleteArchiveIso "/srv/ISO-Archive" "../ISO-Archive-backup/evil.iso"
        ["/srv/ISO-Archive-backup/evil.iso"] =
      CliDeleteResult.deletedFile "/srv/ISO-Archive-backup/evil.iso" := by
  refine ⟨?_, fun _ => rfl, fun _ => rfl, fun _ => rfl, rfl⟩
  intro archivePath filename files hb1 hb2 hb3
  refine ⟨?_, jsBasename_no_slash filename⟩
  have hb1' : (jsBasename filename == "") = false := beq_eq_false_iff_ne.mpr hb1
  have hb2' : (jsBasename filename == ".") = false := beq_eq_false_iff_ne.mpr hb2
  have hb3' : (jsBasename filename == "..") = false := beq_eq_false_iff_ne.mpr hb3
  have hfne : (filename == "") = false := by
    rw [beq_eq_false_iff_ne]
    intro h
    subst h
    exact hb1 rfl
  have hfull : joinBase archivePath (jsBasename filename) =
      archivePath ++ "/" ++ jsBasename filename := by
    unfold joinBase
    rw [hb1', hb2', hb3']
    rfl
  have hdata : (archivePath ++ "/" ++ jsBasename filename).toList =
      (archivePath ++ "/").toList ++ (jsBasename filename).toList := rfl
  have hsw : jsStartsWith (archivePath ++ "/" ++ jsBasename filename)
      (archivePath ++ "/") = true := by
    unfold jsStartsWith
    rw [hdata]
    exact isPrefixOf_append_self _ _
  unfold Web.deleteEndpoint
  rw [hfne]
  simp only [Bool.false_eq_true, if_false, hfull, hsw, Bool.not_true]
  cases hc : files.contains (archivePath ++ "/" ++ jsBasename filename) <;>
    simp [hc]

/-- Witness for `c9_amended`: the claim's own input, with `passwd` present in
the archive. -/
theorem c9_amended_witness :
    Web.deleteEndpoint "/srv/ISO-Archive" "../../etc/passwd"
        ["/srv/ISO-Archive/passwd", "/srv/ISO-Archive/a.iso"] =
      DeleteResponse.deleted "/srv/ISO-Archive/passwd" := by
  have h := (c9_amended.1 "/srv/ISO-Archive" "../../etc/passwd"
    ["/srv/ISO-Archive/passwd", "/srv/ISO-Archive/a.iso"]
    (by decide) (by decide) (by decide)).1
  rw [h]
  rfl
